import Mathlib

/-!
Verification of the lilmail mail-retrieval and threading engine.

The Go sources are shallowly embedded as executable Lean definitions:

* Go strings are `List Char` (`Str`); the empty Go string is `[]`.
* Go `time.Time` values are `Nat` (nanoseconds since the zero time; the
  decoder only ever produces envelope dates at or after Go's zero time,
  and `Time.After` is strict `<` on this scale).
* Go `uint32` arithmetic is `Nat` arithmetic reduced modulo `2 ^ 32` at
  every operation that can wrap.
* The mutable pointer graph of `utils/threading.go` is an arena: a vector
  of nodes (`List Node`) plus an insertion-ordered association list from
  message id to arena index, mirroring `ThreadBuilder.idTable`.  Pointer
  equality of containers is index equality.  Go map iteration order is
  unspecified; the embedding iterates the table in insertion order.
-/

namespace Lilmail

/-- Go strings, modelled as their character sequences. -/
abbrev Str := List Char

/-- Go `unicode.IsSpace` restricted to the ASCII whitespace that the
claims exercise (space, tab, newline, carriage return, vertical tab,
form feed). -/
def goIsSpace (c : Char) : Bool :=
  c = ' ' || c = '\t' || c = '\n' || c = '\x0d' || c = '\x0b' || c = '\x0c'

/-- Go `strings.TrimSpace`: drop leading and trailing whitespace. -/
def goTrim (cs : Str) : Str :=
  ((cs.dropWhile goIsSpace).reverse.dropWhile goIsSpace).reverse

/-- Go `strings.Contains`: substring containment. -/
def goContains (cs sub : Str) : Bool :=
  match cs with
  | [] => sub.isEmpty
  | _ :: rest => sub.isPrefixOf cs || goContains rest sub

/-- Go `strings.Split(s, ",")` as used for recipient lists. -/
def splitComma (cs : Str) : List Str :=
  cs.foldr (fun c acc => if c = ',' then [] :: acc else (c :: acc.headD []) :: acc.tail) [[]]

/-- `models.Email`, restricted to the fields the verified operations read
(`handlers/api/email.go`, `utils/threading.go`). -/
structure Email where
  id : Str
  fromAddr : Str
  toAddr : Str
  subject : Str
  date : Nat
  flags : List Str
  hasAttachments : Bool
  messageID : Str
  inReplyTo : Str
  references : List Str
deriving DecidableEq, Repr

instance : Inhabited Email :=
  ⟨{ id := [], fromAddr := [], toAddr := [], subject := [], date := 0, flags := [],
     hasAttachments := false, messageID := [], inReplyTo := [], references := [] }⟩

/-- `utils.ThreadContainer`: one arena node of the JWZ builder.  The Go
struct's `Parent`/`Children` pointers become arena indices. -/
structure Node where
  message : Option Email
  parent : Option Nat
  children : List Nat
deriving DecidableEq, Repr

def defaultNode : Node := { message := none, parent := none, children := [] }

instance : Inhabited Node := ⟨defaultNode⟩

/-- `utils.ThreadBuilder`: the arena of containers plus `idTable`. -/
structure BuilderState where
  nodes : List Node
  table : List (Str × Nat)
deriving DecidableEq, Repr

/-- `utils.NewThreadBuilder`. -/
def initialState : BuilderState := { nodes := [], table := [] }

/-- Lookup in the insertion-ordered embedding of `idTable`. -/
def lookupTable : List (Str × Nat) → Str → Option Nat
  | [], _ => none
  | (k, i) :: rest, key => if k = key then some i else lookupTable rest key

def getNode (nodes : List Node) (i : Nat) : Node := nodes.getD i defaultNode

def setNode (nodes : List Node) (i : Nat) (n : Node) : List Node := nodes.set i n

/-- `ThreadBuilder.getContainer` (threading.go:80-91): an empty message id
yields a fresh container that is never registered in `idTable`; otherwise
the container for the id is fetched or created and registered. -/
def getContainer (s : BuilderState) (messageID : Str) : BuilderState × Nat :=
  if messageID = [] then
    ({ nodes := s.nodes ++ [defaultNode], table := s.table }, s.nodes.length)
  else
    match lookupTable s.table messageID with
    | some i => (s, i)
    | none =>
      ({ nodes := s.nodes ++ [defaultNode],
         table := s.table ++ [(messageID, s.nodes.length)] }, s.nodes.length)

/-- One linking step of `BuildThreads` (threading.go:38-58): obtain the two
containers and link child under parent unless the containers coincide
(self-loop guard) or the child already has a parent (first-writer-wins). -/
def link (s : BuilderState) (parentID childID : Str) : BuilderState :=
  let p1 := getContainer s parentID
  let p2 := getContainer p1.1 childID
  let st := p2.1
  let pIdx := p1.2
  let cIdx := p2.2
  let childNode := getNode st.nodes cIdx
  if pIdx ≠ cIdx ∧ childNode.parent = none then
    let nodes1 := setNode st.nodes cIdx { childNode with parent := some pIdx }
    let parentNode := getNode nodes1 pIdx
    let nodes2 := setNode nodes1 pIdx
      { parentNode with children := parentNode.children ++ [cIdx] }
    { nodes := nodes2, table := st.table }
  else st

/-- The References loop of `BuildThreads` (threading.go:38-47): for index
`i` the parent is `refs[i]` and the child is `refs[min (i+1) (len-1)]`. -/
def linkRefs (s : BuilderState) (refs : List Str) : BuilderState :=
  (List.range refs.length).foldl
    (fun st i => link st (refs.getD i []) (refs.getD (min (i + 1) (refs.length - 1)) [])) s

/-- `tb.getContainer(email.MessageID).Message = email` (threading.go:36). -/
def assignMessage (s : BuilderState) (e : Email) : BuilderState :=
  let p := getContainer s e.messageID
  { nodes := setNode p.1.nodes p.2 { getNode p.1.nodes p.2 with message := some e },
    table := p.1.table }

/-- Pass 1 of `BuildThreads` for one email: register the message, run the
References loop, then the In-Reply-To link (threading.go:35-58). -/
def processEmail (s : BuilderState) (e : Email) : BuilderState :=
  let s1 := assignMessage s e
  let s2 := linkRefs s1 e.references
  if e.inReplyTo ≠ [] then link s2 e.inReplyTo e.messageID else s2

/-- Pass 1 of `BuildThreads` over the whole batch. -/
def pass1 (emails : List Email) : BuilderState :=
  emails.foldl processEmail initialState

/-- Step 2 of `BuildThreads` (threading.go:61-65): every table container
without a parent is a root.  Go iterates `idTable` in unspecified order;
the embedding uses insertion order. -/
def rootSet (s : BuilderState) : List Nat :=
  (s.table.map (fun p => p.2)).filter (fun i => (getNode s.nodes i).parent = none)

/-- `ThreadBuilder.collectMessages` (threading.go:160-168): pre-order
collection of the messages of a subtree.  The recursion is bounded by
explicit fuel; a traversal that starts from a parentless root visits
each container at most once, so `nodes.length + 1` fuel reproduces the
Go recursion there. -/
def collectMessages (nodes : List Node) : Nat → Nat → List Email
  | 0, _ => []
  | fuel + 1, i =>
    let node := getNode nodes i
    (match node.message with
     | some m => [m]
     | none => []) ++ node.children.flatMap (collectMessages nodes fuel)

def collectThread (s : BuilderState) (i : Nat) : List Email :=
  collectMessages s.nodes (s.nodes.length + 1) i

/-- The literal marker strings of `cleanSubject` (threading.go:173). -/
def subjectMarkers : List Str :=
  ["Re:".data, "RE:".data, "Fwd:".data, "FWD:".data, "Fw:".data]

/-- The inner loop of `cleanSubject`: find the first matching marker,
strip it and trim; `none` when no marker matches. -/
def stripMarker (cs : Str) : Option Str :=
  match subjectMarkers.find? (fun p => p.isPrefixOf cs) with
  | some p => some (goTrim (cs.drop p.length))
  | none => none

def cleanSubjectLoop : Nat → Str → Str
  | 0, cs => cs
  | fuel + 1, cs =>
    match stripMarker cs with
    | some cs2 => cleanSubjectLoop fuel cs2
    | none => cs

/-- `utils.cleanSubject` (threading.go:171-190).  Each strip removes at
least the marker's characters, so `length + 1` fuel is never exhausted
before the loop's fixed point. -/
def cleanSubject (subject : Str) : Str :=
  let t := goTrim subject
  cleanSubjectLoop (t.length + 1) t

/-- `utils.hasFlag` (threading.go:201-208). -/
def hasFlag (flags : List Str) (flag : Str) : Bool :=
  flags.contains flag

def seenFlag : Str := "\\Seen".data

/-- Insertion of one key into the participants set.  Go collects keys of
a `map[string]bool` in unspecified order; the embedding keeps first
insertion order. -/
def insertParticipant (acc : List Str) (x : Str) : List Str :=
  if acc.contains x then acc else acc ++ [x]

/-- The participants collection of `groupThreads` (threading.go:117-126). -/
def participantsOf (msgs : List Email) : List Str :=
  msgs.foldl (fun acc m =>
    let acc1 := insertParticipant acc m.fromAddr
    if m.toAddr ≠ [] then (splitComma m.toAddr).foldl (fun a t => insertParticipant a (goTrim t)) acc1
    else acc1) []

/-- The latest-date loop of `groupThreads` (threading.go:128-133):
`LastDate` starts at the zero time and is replaced whenever a member's
date is strictly after it. -/
def latestDate (msgs : List Email) : Nat :=
  msgs.foldl (fun acc m => if acc < m.date then m.date else acc) 0

/-- `utils.generateThreadID` (threading.go:192-198); `now` stands for the
formatted current time used for placeholder roots. -/
def generateThreadID (now : Str) (root : Node) : Str :=
  match root.message with
  | some m => if m.messageID ≠ [] then m.messageID else now
  | none => now

/-- `models.EmailThread`, restricted to the fields `groupThreads` sets. -/
structure EmailThread where
  id : Str
  subject : Str
  participants : List Str
  messageCount : Nat
  unread : Bool
  lastDate : Nat
  hasAttachment : Bool
  messages : List Email
deriving DecidableEq, Repr

instance : Inhabited EmailThread :=
  ⟨{ id := [], subject := [], participants := [], messageCount := 0, unread := false,
     lastDate := 0, hasAttachment := false, messages := [] }⟩

/-- The body of the `groupThreads` loop for one root (threading.go:97-151):
skip pure placeholders, collect the subtree's messages, skip empty
collections, and stamp the thread's derived fields. -/
def mkThread (now : Str) (s : BuilderState) (rootIdx : Nat) : Option EmailThread :=
  let root := getNode s.nodes rootIdx
  if root.message = none ∧ root.children = [] then none
  else
    let msgs := collectThread s rootIdx
    if msgs = [] then none
    else some
      { id := generateThreadID now root
        subject := cleanSubject (msgs.headD default).subject
        participants := participantsOf msgs
        messageCount := msgs.length
        unread := msgs.any (fun m => !hasFlag m.flags seenFlag)
        lastDate := latestDate msgs
        hasAttachment := msgs.any (fun m => m.hasAttachments)
        messages := msgs }

/-- `ThreadBuilder.groupThreads` (threading.go:94-157). -/
def groupThreads (now : Str) (s : BuilderState) : List EmailThread :=
  (rootSet s).filterMap (mkThread now s)

/-- `ThreadBuilder.BuildThreads` (threading.go:33-77): Pass 1, root
collection, grouping, and the final sort by last date descending. -/
def buildThreads (now : Str) (emails : List Email) : List EmailThread :=
  let s := pass1 emails
  List.mergeSort (groupThreads now s) (fun a b => decide (b.lastDate ≤ a.lastDate))

/-- A message that carries only a References chain, as in the C1 claim. -/
def emailRefsAB : Email :=
  { (default : Email) with messageID := "m".data, references := ["a".data, "b".data] }

def emailCycle1 : Email :=
  { (default : Email) with messageID := "m1".data, references := ["a".data, "b".data] }

def emailCycle2 : Email :=
  { (default : Email) with messageID := "m2".data, references := ["b".data, "a".data] }

/-- C1: after Pass 1 on the single message `m` with References `[a, b]`
and empty In-Reply-To, the consecutive pair `a -> b` is linked, but the
node of `m` itself has no parent and is not a child of `b`, the last
entry of its References list — the References loop links
`refs[i] -> refs[min (i+1) (len-1)]`, which never reaches the message's
own node, so the claimed link of `m` under `b` is absent. -/
theorem pass1_message_not_linked_under_last_reference :
    lookupTable (pass1 [emailRefsAB]).table "m".data = some 0 ∧
    lookupTable (pass1 [emailRefsAB]).table "b".data = some 2 ∧
    (getNode (pass1 [emailRefsAB]).nodes 0).parent = none ∧
    (getNode (pass1 [emailRefsAB]).nodes 2).children = [] ∧
    (getNode (pass1 [emailRefsAB]).nodes 2).parent = some 1 := by
  decide

/-- C2: Pass 1 on the two messages `m1` (References `[a, b]`) and `m2`
(References `[b, a]`) makes the containers of `a` and `b` each other's
parent: the parent/child relation contains a cycle, so it is not a
forest — the builder has no JWZ loop check. -/
theorem pass1_creates_parent_cycle :
    lookupTable (pass1 [emailCycle1, emailCycle2]).table "a".data = some 1 ∧
    lookupTable (pass1 [emailCycle1, emailCycle2]).table "b".data = some 2 ∧
    (getNode (pass1 [emailCycle1, emailCycle2]).nodes 1).parent = some 2 ∧
    (getNode (pass1 [emailCycle1, emailCycle2]).nodes 2).parent = some 1 := by
  decide

/-- C5 counterexample: `cleanSubject` does not strip the lowercase
marker `re:`, so subject cleaning is not case-insensitive. -/
theorem cleanSubject_not_case_insensitive :
    cleanSubject "re: Hello".data ≠ "Hello".data := by
  decide

/-- C5 (amended): `cleanSubject` strips, repeatedly, exactly the literal
markers `Re:`, `RE:`, `Fwd:`, `FWD:`, `Fw:`; both spec examples hold, and
any subject whose trimmed form starts with none of the five markers is
returned merely trimmed (so other casings such as `re:` survive). -/
theorem cleanSubject_strips_exact_markers :
    cleanSubject "Re: Re: Hello".data = "Hello".data ∧
    cleanSubject "FWD: Hi".data = "Hi".data ∧
    ∀ s : Str, stripMarker (goTrim s) = none → cleanSubject s = goTrim s := by
  refine ⟨by decide, by decide, ?_⟩
  intro s h
  simp only [cleanSubject, cleanSubjectLoop, h]

/-- C5 witness: the amended theorem applied to the subject `re: Hello`,
whose trimmed form starts with no listed marker. -/
theorem cleanSubject_strips_exact_markers_witness :
    cleanSubject "re: Hello".data = goTrim "re: Hello".data :=
  cleanSubject_strips_exact_markers.2.2 "re: Hello".data (by decide)

/-! ## Pagination and message retrieval (`handlers/api/email.go`, `models/pagination.go`) -/

/-- The `uint32` modulus. -/
def U32 : Nat := 4294967296

/-- Go `uint32` addition. -/
def add32 (a b : Nat) : Nat := (a + b) % U32

/-- Go `uint32` subtraction (two's-complement wraparound). -/
def sub32 (a b : Nat) : Nat := (a % U32 + (U32 - b % U32)) % U32

/-- Go `uint32` multiplication. -/
def mul32 (a b : Nat) : Nat := (a * b) % U32

/-- `models.PaginatedEmails` (pagination.go:4-13). -/
structure PaginatedEmails where
  emails : List Email
  page : Nat
  pageSize : Nat
  totalPages : Nat
  totalEmails : Nat
  hasNext : Bool
  hasPrev : Bool
deriving DecidableEq, Repr

/-- `models.NewPaginatedEmails` (pagination.go:15-30): derived total page
count `(totalEmails + pageSize - 1) / pageSize` in `uint32` arithmetic,
normalized to 1 when zero.  Nat division by zero yields 0 where Go
panics; the verified claims only exercise `pageSize ≥ 1`. -/
def newPaginatedEmails (emails : List Email) (page pageSize totalEmails : Nat) :
    PaginatedEmails :=
  let tp := sub32 (add32 totalEmails pageSize) 1 / pageSize
  let totalPages := if tp = 0 then 1 else tp
  { emails := emails, page := page, pageSize := pageSize, totalPages := totalPages,
    totalEmails := totalEmails, hasNext := decide (page < totalPages),
    hasPrev := decide (1 < page) }

/-- The page-range computation of `FetchMessagesPaginated`
(email.go:152-172) in `uint32` arithmetic: total page count, clamping of
the requested page, and the start/end sequence numbers for the fetch.
Result: (clamped page, start, end). -/
def pageRange (totalMessages page pageSize : Nat) : Nat × Nat × Nat :=
  let totalPages := sub32 (add32 totalMessages pageSize) 1 / pageSize
  let page1 := if page < 1 then 1 else page
  let page2 := if totalPages < page1 then totalPages else page1
  let stop := sub32 totalMessages (mul32 (sub32 page2 1) pageSize)
  let start0 := add32 (sub32 stop pageSize) 1
  let start := if start0 < 1 then 1 else start0
  (page2, start, stop)

/-- The messages a `FETCH start:end` returns.  A mailbox is the list of
per-message decode outcomes in sequence-number order (`none` models a
`processMessage` failure for that message).  Per RFC 3501 (and go-imap's
`SeqSet.AddRange`, whose argument order does not matter) the range
`a:b` denotes all messages between the two numbers regardless of order,
clipped to the mailbox. -/
def seqRange (mbox : List (Option Email)) (a b : Nat) : List (Option Email) :=
  ((List.range' 1 mbox.length).filter
      (fun n => decide (min a b ≤ n) && decide (n ≤ max a b))).map
    (fun n => mbox.getD (n - 1) none)

/-- `Client.FetchMessages` (email.go:25-95): select the folder (`none`
models a selection failure), fetch the most recent `limit` messages, and
keep exactly the ones that decode; a decode failure is skipped. -/
def fetchMessages (folder : Option (List (Option Email))) (limit : Nat) :
    Except Str (List Email) :=
  match folder with
  | none => .error "error selecting folder".data
  | some mbox =>
    if mbox.length = 0 then .ok []
    else
      let start := if limit < mbox.length then mbox.length - limit + 1 else 1
      .ok ((seqRange mbox start mbox.length).filterMap id)

/-- `Client.FetchMessagesPaginated` (email.go:142-209): empty folders
answer immediately; otherwise the page range is fetched, decode failures
are skipped, the page is reversed to newest-first and wrapped by
`NewPaginatedEmails`.  `pageSize = 0` would make Go divide by zero. -/
def fetchMessagesPaginated (folder : Option (List (Option Email)))
    (page pageSize : Nat) : Except Str PaginatedEmails :=
  match folder with
  | none => .error "error selecting folder".data
  | some mbox =>
    if mbox.length = 0 then .ok (newPaginatedEmails [] page pageSize 0)
    else if pageSize = 0 then .error "division by zero".data
    else
      let r := pageRange mbox.length page pageSize
      let emails := ((seqRange mbox r.2.1 r.2.2).filterMap id).reverse
      .ok (newPaginatedEmails emails r.1 pageSize mbox.length)

/-- `Client.FetchMessagesByUIDs` (email.go:645-719): an empty uid list
answers immediately; otherwise the messages whose uid is requested are
fetched in mailbox order and decode failures are skipped. -/
def fetchMessagesByUIDs (folder : Option (List (Nat × Option Email)))
    (uids : List Nat) : Except Str (List Email) :=
  if uids = [] then .ok []
  else
    match folder with
    | none => .error "error selecting folder".data
    | some mbox =>
      .ok (((mbox.filter (fun p => uids.contains p.1)).map (fun p => p.2)).filterMap id)

/-- A 101-message folder in which every message decodes. -/
def folder101 : List (Option Email) := List.replicate 101 (some (default : Email))

/-- C3: for a 101-message folder with pageSize 50, requesting page 3
computes `start = end - pageSize + 1 = 1 - 50 + 1` in `uint32`, which
wraps to 4294967248 instead of clamping to 1; the fetched range
`1:4294967248` therefore covers the whole folder and all 101 messages
are returned where the claim promises exactly 1 (totalPages = 3 and
hasNext = false do hold). -/
theorem fetchMessagesPaginated_last_page_underflow :
    pageRange 101 3 50 = (3, 4294967248, 1) ∧
    (fetchMessagesPaginated (some folder101) 3 50).map
      (fun r => (r.emails.length, r.totalPages, r.hasNext)) = .ok (101, 3, false) := by
  exact ⟨rfl, rfl⟩

/-! ## MIME body extraction (`processMessage`, email.go:501-590) -/

/-- One decoded MIME part: its Content-Type header value and its bytes. -/
structure MimePart where
  contentType : Str
  content : Str
deriving DecidableEq, Repr

/-- The body fields `processMessage` fills from a multipart walk. -/
structure BodyState where
  body : Str
  html : Str
deriving DecidableEq, Repr

/-- The multipart loop of `processMessage` (email.go:528-560): every part
whose Content-Type contains `text/plain` overwrites the plain body;
otherwise a part containing `text/html` overwrites the sanitized markup
body.  `sanitize` stands for `utils.SanitizeHTML`. -/
def processParts (sanitize : Str → Str) (parts : List MimePart) : BodyState :=
  parts.foldl (fun st p =>
    if goContains p.contentType "text/plain".data then { st with body := p.content }
    else if goContains p.contentType "text/html".data then
      { st with html := sanitize p.content }
    else st) { body := [], html := [] }

/-- The last part of a multipart body whose type contains `text/plain`. -/
def lastPlainPart (parts : List MimePart) : Option MimePart :=
  parts.reverse.find? (fun p => goContains p.contentType "text/plain".data)

def plainPartA : MimePart := { contentType := "text/plain".data, content := "A".data }

def plainPartB : MimePart := { contentType := "text/plain".data, content := "B".data }

/-- C4 counterexample: walking two `text/plain` parts `A` then `B` leaves
body `B` — the first occurrence does not win. -/
theorem processParts_first_plain_loses :
    (processParts (fun s => s) [plainPartA, plainPartB]).body = "B".data ∧
    "B".data ≠ "A".data := by
  exact ⟨rfl, by decide⟩

/-- The multipart walk's body field is determined by the last
`text/plain` part, whatever the initial state. -/
theorem processPartsAux (sanitize : Str → Str) (parts : List MimePart) :
    ∀ st : BodyState,
      (parts.foldl (fun st p =>
        if goContains p.contentType "text/plain".data then { st with body := p.content }
        else if goContains p.contentType "text/html".data then
          { st with html := sanitize p.content }
        else st) st).body =
      ((parts.reverse.find? (fun p => goContains p.contentType "text/plain".data)).map
        (fun p => p.content)).getD st.body := by
  induction parts with
  | nil => intro st; rfl
  | cons p ps ih =>
    intro st
    simp only [List.foldl_cons, List.reverse_cons, List.find?_append]
    rw [ih]
    cases hfind : ps.reverse.find? (fun q => goContains q.contentType "text/plain".data) with
    | some r => simp [hfind]
    | none =>
      simp only [hfind, Option.none_or]
      by_cases hq : goContains p.contentType "text/plain".data
      · simp [hq]
      · by_cases hh : goContains p.contentType "text/html".data <;> simp [hq, hh]

/-- C4 (amended): in the multipart walk the LAST part whose Content-Type
contains `text/plain` becomes the plain-text body (each occurrence
overwrites the previous one); the body is empty when no such part
exists. -/
theorem processParts_last_plain_wins (sanitize : Str → Str) (parts : List MimePart) :
    (processParts sanitize parts).body =
      ((lastPlainPart parts).map (fun p => p.content)).getD [] := by
  have h := processPartsAux sanitize parts { body := [], html := [] }
  simpa [processParts, lastPlainPart] using h

/-! ## Folder management handlers (`handlers/api/folder.go`) -/

/-- A protocol-level action a folder handler could take.  The embedded
handlers are placeholders that never create an IMAP client nor issue a
protocol call, so their action trace is always empty. -/
inductive ProtoCall where
  | createClient
  | deleteFolderCall (name : Str)
  | renameFolderCall (oldName newName : Str)
deriving DecidableEq, Repr

/-- The observable outcome of a folder handler: HTTP status, the error
field of the JSON body (empty on success), and the trace of client
creations / protocol calls performed. -/
structure HandlerResult where
  status : Nat
  errMsg : Str
  calls : List ProtoCall
deriving DecidableEq, Repr

/-- The reserved names of `DeleteFolder`/`RenameFolder` (folder.go:65,99). -/
def systemFolders : List Str :=
  ["INBOX".data, "Sent".data, "Drafts".data, "Trash".data, "Spam".data]

/-- `FolderHandler.DeleteFolder` (folder.go:57-81): empty-name check,
system-folder check, then the 501 placeholder answer; no IMAP client is
ever created. -/
def deleteFolder (name : Str) : HandlerResult :=
  if name = [] then
    { status := 400, errMsg := "Folder name is required".data, calls := [] }
  else if systemFolders.contains name then
    { status := 400, errMsg := "Cannot delete system folder".data, calls := [] }
  else
    { status := 501, errMsg := "Folder deletion is not yet supported".data, calls := [] }

/-- `FolderHandler.RenameFolder` (folder.go:83-113). -/
def renameFolder (oldName newName : Str) : HandlerResult :=
  if oldName = [] ∨ newName = [] then
    { status := 400, errMsg := "Both old name and new name are required".data, calls := [] }
  else if systemFolders.contains oldName then
    { status := 400, errMsg := "Cannot rename system folder".data, calls := [] }
  else
    { status := 501, errMsg := "Folder renaming is not yet supported".data, calls := [] }

/-- C8: deleting or renaming any reserved system folder is answered with
a 400 validation error and an empty protocol-call trace — the check
happens before any client connection could be created. -/
theorem systemFolder_mutation_rejected_before_protocol
    (name newName : Str) (h : name ∈ systemFolders) :
    deleteFolder name =
      { status := 400, errMsg := "Cannot delete system folder".data, calls := [] } ∧
    (renameFolder name newName).status = 400 ∧
    (renameFolder name newName).calls = [] := by
  obtain ⟨h1, h2⟩ : name ≠ [] ∧ systemFolders.contains name = true := by
    simp only [systemFolders, List.mem_cons, List.not_mem_nil, or_false] at h
    rcases h with rfl | rfl | rfl | rfl | rfl <;> exact ⟨by decide, by decide⟩
  refine ⟨?_, ?_⟩
  · unfold deleteFolder
    rw [if_neg h1, if_pos h2]
  · by_cases hn : newName = []
    · subst hn
      unfold renameFolder
      rw [if_pos (Or.inr rfl)]
      exact ⟨rfl, rfl⟩
    · unfold renameFolder
      rw [if_neg (by push_neg; exact ⟨h1, hn⟩), if_pos h2]
      exact ⟨rfl, rfl⟩

/-- C8 witness: the theorem at the reserved folder `INBOX`. -/
theorem systemFolder_mutation_rejected_before_protocol_witness :
    deleteFolder "INBOX".data =
      { status := 400, errMsg := "Cannot delete system folder".data, calls := [] } ∧
    (renameFolder "INBOX".data "Archive".data).status = 400 ∧
    (renameFolder "INBOX".data "Archive".data).calls = [] :=
  systemFolder_mutation_rejected_before_protocol "INBOX".data "Archive".data (by decide)

/-! ## Delete/Move with folder-wide expunge (email.go:263-294, 339-377) -/

def deletedFlag : Str := "\\Deleted".data

/-- One message as the IMAP server stores it: uid and flag set. -/
structure ImapMsg where
  uid : Nat
  flags : List Str
deriving DecidableEq, Repr

/-- `UidStore +FLAGS \Deleted` on one uid (RFC 3501 STORE; flags form a
set, so an already-present flag is not duplicated). -/
def storeDeleted (msgs : List ImapMsg) (uidNum : Nat) : List ImapMsg :=
  msgs.map (fun m =>
    if m.uid == uidNum && !hasFlag m.flags deletedFlag then
      { m with flags := m.flags ++ [deletedFlag] }
    else m)

/-- `client.Expunge(nil)` issues a folder-wide EXPUNGE (RFC 3501), which
permanently removes every message of the selected mailbox carrying
`\Deleted`. -/
def expunge (msgs : List ImapMsg) : List ImapMsg :=
  msgs.filter (fun m => !hasFlag m.flags deletedFlag)

/-- `parseUID` (client.go:81-88), `fmt.Sscanf` with `%d`, modelled on the
plain digit strings the handlers pass. -/
def parseUID (s : Str) : Option Nat :=
  if s ≠ [] ∧ s.all (fun c => c.isDigit) then
    some (s.foldl (fun acc c => acc * 10 + (c.toNat - 48)) 0)
  else none

/-- `Client.DeleteMessage` (email.go:263-294): parse the uid, select the
folder, flag the message `\Deleted`, then expunge the whole folder. -/
def deleteMessage (folder : Option (List ImapMsg)) (uid : Str) :
    Except Str (List ImapMsg) :=
  match parseUID uid with
  | none => .error "invalid UID".data
  | some uidNum =>
    match folder with
    | none => .error "error selecting folder".data
    | some msgs => .ok (expunge (storeDeleted msgs uidNum))

/-- `Client.MoveMessage` (email.go:339-377): parse the uid, select the
source, copy the matching message to the target folder, flag it
`\Deleted` in the source, then expunge the whole source folder.
Result: (source after expunge, target after copy). -/
def moveMessage (source : Option (List ImapMsg)) (target : List ImapMsg) (uid : Str) :
    Except Str (List ImapMsg × List ImapMsg) :=
  match parseUID uid with
  | none => .error "invalid UID".data
  | some uidNum =>
    match source with
    | none => .error "error selecting source folder".data
    | some msgs =>
      .ok (expunge (storeDeleted msgs uidNum),
           target ++ msgs.filter (fun m => m.uid == uidNum))

/-- C10: DeleteMessage and MoveMessage end with a folder-wide expunge:
the surviving source folder is exactly the original minus the targeted
uid and minus EVERY message already carrying `\Deleted`; in particular
any message flagged deleted by an earlier operation is purged even
though its uid was never mentioned. -/
theorem deleteMessage_expunges_every_deleted
    (msgs target : List ImapMsg) (uid : Str) (uidNum : Nat)
    (h : parseUID uid = some uidNum) :
    deleteMessage (some msgs) uid =
      .ok (msgs.filter (fun m => !hasFlag m.flags deletedFlag && !(m.uid == uidNum))) ∧
    (moveMessage (some msgs) target uid).map (fun p => p.1) =
      .ok (msgs.filter (fun m => !hasFlag m.flags deletedFlag && !(m.uid == uidNum))) ∧
    ∀ m ∈ msgs, hasFlag m.flags deletedFlag = true → ∀ r,
      deleteMessage (some msgs) uid = .ok r → m ∉ r := by
  have key : expunge (storeDeleted msgs uidNum) =
      msgs.filter (fun m => !hasFlag m.flags deletedFlag && !(m.uid == uidNum)) := by
    induction msgs with
    | nil => rfl
    | cons m ms ih =>
      by_cases hdel : hasFlag m.flags deletedFlag = true
      · have h1 : storeDeleted (m :: ms) uidNum = m :: storeDeleted ms uidNum := by
          simp [storeDeleted, hdel]
        have h2 : expunge (m :: storeDeleted ms uidNum) = expunge (storeDeleted ms uidNum) := by
          simp [expunge, List.filter_cons, hdel]
        have h3 : (m :: ms).filter (fun m => !hasFlag m.flags deletedFlag && !(m.uid == uidNum)) =
            ms.filter (fun m => !hasFlag m.flags deletedFlag && !(m.uid == uidNum)) := by
          simp [List.filter_cons, hdel]
        rw [h1, h2, h3, ih]
      · by_cases huid : (m.uid == uidNum) = true
        · have huid2 : m.uid = uidNum := by simpa using huid
          have hdel2 : hasFlag m.flags deletedFlag = false := by
            rwa [Bool.not_eq_true] at hdel
          have h1 : storeDeleted (m :: ms) uidNum =
              ({ m with flags := m.flags ++ [deletedFlag] } : ImapMsg) :: storeDeleted ms uidNum := by
            simp [storeDeleted, huid2, hdel2]
          have hflag : hasFlag (m.flags ++ [deletedFlag]) deletedFlag = true := by
            simp [hasFlag]
          have h2 : expunge (({ m with flags := m.flags ++ [deletedFlag] } : ImapMsg) ::
              storeDeleted ms uidNum) = expunge (storeDeleted ms uidNum) := by
            simp [expunge, List.filter_cons, hflag]
          have h3 : (m :: ms).filter (fun m => !hasFlag m.flags deletedFlag && !(m.uid == uidNum)) =
              ms.filter (fun m => !hasFlag m.flags deletedFlag && !(m.uid == uidNum)) := by
            simp [List.filter_cons, huid]
          rw [h1, h2, h3, ih]
        · have huid2 : m.uid ≠ uidNum := by simpa using huid
          have h1 : storeDeleted (m :: ms) uidNum = m :: storeDeleted ms uidNum := by
            simp [storeDeleted, huid2]
          have h2 : expunge (m :: storeDeleted ms uidNum) =
              m :: expunge (storeDeleted ms uidNum) := by
            simp [expunge, List.filter_cons, hdel]
          have h3 : (m :: ms).filter (fun m => !hasFlag m.flags deletedFlag && !(m.uid == uidNum)) =
              m :: ms.filter (fun m => !hasFlag m.flags deletedFlag && !(m.uid == uidNum)) := by
            simp [List.filter_cons, hdel, huid]
          rw [h1, h2, h3, ih]
  refine ⟨?_, ?_, ?_⟩
  · simp [deleteMessage, h, key]
  · simp [moveMessage, h, key, Except.map]
  · intro m hm hdel r hr hmem
    have : deleteMessage (some msgs) uid =
        .ok (msgs.filter (fun m => !hasFlag m.flags deletedFlag && !(m.uid == uidNum))) := by
      simp [deleteMessage, h, key]
    rw [this] at hr
    cases hr
    have := List.of_mem_filter hmem
    simp [hdel] at this

/-! ## Structural invariants of Pass 1 (for C6 and C9) -/

/-- Container `i` never holds a message with an empty `MessageID`. -/
def Good (nodes : List Node) (i : Nat) : Prop :=
  ∀ m, (getNode nodes i).message = some m → m.messageID ≠ []

/-- The Pass-1 invariant: table entries and children indices are in
range, and every container reachable through the id table or through a
children list holds only messages with non-empty ids.  The message of an
email with an empty `MessageID` lives in a fresh container that
`getContainer` never registers, so it never becomes reachable. -/
structure Inv (s : BuilderState) : Prop where
  tableLt : ∀ p ∈ s.table, p.2 < s.nodes.length
  childLt : ∀ i j, j ∈ (getNode s.nodes i).children → j < s.nodes.length
  goodTable : ∀ p ∈ s.table, Good s.nodes p.2
  goodChild : ∀ i j, j ∈ (getNode s.nodes i).children → Good s.nodes j

theorem getNode_of_le (nodes : List Node) (i : Nat) (h : nodes.length ≤ i) :
    getNode nodes i = defaultNode := by
  unfold getNode
  simp [List.getD_eq_getElem?_getD, List.getElem?_eq_none h]

theorem getNode_set_self (nodes : List Node) (i : Nat) (n : Node) (h : i < nodes.length) :
    getNode (setNode nodes i n) i = n := by
  unfold getNode setNode
  simp [List.getD_eq_getElem?_getD, List.getElem?_set_self, h]

theorem getNode_set_ne (nodes : List Node) (i j : Nat) (n : Node) (h : i ≠ j) :
    getNode (setNode nodes i n) j = getNode nodes j := by
  unfold getNode setNode
  simp [List.getD_eq_getElem?_getD, List.getElem?_set_ne h]

theorem length_setNode (nodes : List Node) (i : Nat) (n : Node) :
    (setNode nodes i n).length = nodes.length := by
  simp [setNode]

theorem getNode_append_default (nodes : List Node) (i : Nat) :
    getNode (nodes ++ [defaultNode]) i = getNode nodes i := by
  rcases lt_trichotomy i nodes.length with h | h | h
  · unfold getNode
    simp [List.getD_eq_getElem?_getD, List.getElem?_append_left h]
  · subst h
    rw [getNode_of_le nodes _ (le_refl _)]
    unfold getNode
    simp [List.getD_eq_getElem?_getD]
  · rw [getNode_of_le nodes _ (le_of_lt h), getNode_of_le]
    simp
    omega

theorem good_of_eq {nodes nodes2 : List Node} {i : Nat}
    (h : (getNode nodes2 i).message = (getNode nodes i).message) (hg : Good nodes i) :
    Good nodes2 i :=
  fun m hm => hg m (h ▸ hm)

theorem lookupTable_mem {t : List (Str × Nat)} {key : Str} {i : Nat}
    (h : lookupTable t key = some i) : (key, i) ∈ t := by
  induction t with
  | nil => cases h
  | cons p rest ih =>
    obtain ⟨k, v⟩ := p
    by_cases hk : k = key
    · subst hk
      simp [lookupTable] at h
      subst h
      exact List.mem_cons_self _ _
    · simp [lookupTable, hk] at h
      exact List.mem_cons_of_mem _ (ih h)

/-- The three outcomes of `getContainer`: anonymous fresh container for
the empty id, table hit, and fresh registered container. -/
theorem getContainer_cases (s : BuilderState) (key : Str) :
    (key = [] ∧ (getContainer s key).1 =
        { nodes := s.nodes ++ [defaultNode], table := s.table } ∧
      (getContainer s key).2 = s.nodes.length) ∨
    (key ≠ [] ∧ ∃ i, lookupTable s.table key = some i ∧
      (getContainer s key).1 = s ∧ (getContainer s key).2 = i) ∨
    (key ≠ [] ∧ lookupTable s.table key = none ∧
      (getContainer s key).1 =
        { nodes := s.nodes ++ [defaultNode],
          table := s.table ++ [(key, s.nodes.length)] } ∧
      (getContainer s key).2 = s.nodes.length) := by
  by_cases hk : key = []
  · left
    refine ⟨hk, ?_, ?_⟩ <;> simp [getContainer, hk]
  · cases hl : lookupTable s.table key with
    | some i =>
      right; left
      refine ⟨hk, i, rfl, ?_, ?_⟩ <;> simp [getContainer, hk, hl]
    | none =>
      right; right
      refine ⟨hk, rfl, ?_, ?_⟩ <;> simp [getContainer, hk, hl]

theorem getContainer_getNode (s : BuilderState) (key : Str) (i : Nat) :
    getNode (getContainer s key).1.nodes i = getNode s.nodes i := by
  rcases getContainer_cases s key with ⟨_, h1, _⟩ | ⟨_, _, _, h1, _⟩ | ⟨_, _, h1, _⟩ <;>
    rw [h1] <;> simp [getNode_append_default]

theorem getContainer_len (s : BuilderState) (key : Str) :
    s.nodes.length ≤ (getContainer s key).1.nodes.length := by
  rcases getContainer_cases s key with ⟨_, h1, _⟩ | ⟨_, _, _, h1, _⟩ | ⟨_, _, h1, _⟩ <;>
    rw [h1] <;> simp

theorem getContainer_lt (s : BuilderState) (key : Str) (hs : Inv s) :
    (getContainer s key).2 < (getContainer s key).1.nodes.length := by
  rcases getContainer_cases s key with ⟨_, h1, h2⟩ | ⟨_, i, hl, h1, h2⟩ | ⟨_, _, h1, h2⟩
  · rw [h1, h2]; simp
  · rw [h1, h2]; exact hs.tableLt _ (lookupTable_mem hl)
  · rw [h1, h2]; simp

theorem getContainer_good (s : BuilderState) (key : Str) (hs : Inv s) :
    Good (getContainer s key).1.nodes (getContainer s key).2 := by
  rcases getContainer_cases s key with ⟨_, h1, h2⟩ | ⟨_, i, hl, h1, h2⟩ | ⟨_, _, h1, h2⟩
  · rw [h1, h2]
    intro m hm
    rw [getNode_append_default, getNode_of_le s.nodes _ (le_refl _)] at hm
    cases hm
  · rw [h1, h2]
    exact hs.goodTable _ (lookupTable_mem hl)
  · rw [h1, h2]
    intro m hm
    rw [getNode_append_default, getNode_of_le s.nodes _ (le_refl _)] at hm
    cases hm

theorem inv_getContainer (s : BuilderState) (key : Str) (hs : Inv s) :
    Inv (getContainer s key).1 := by
  rcases getContainer_cases s key with ⟨_, h1, _⟩ | ⟨_, i, hl, h1, _⟩ | ⟨_, _, h1, _⟩
  · rw [h1]
    refine ⟨?_, ?_, ?_, ?_⟩
    · intro p hp
      exact lt_of_lt_of_le (hs.tableLt p hp) (by simp)
    · intro i j hj
      rw [getNode_append_default] at hj
      exact lt_of_lt_of_le (hs.childLt i j hj) (by simp)
    · intro p hp
      exact good_of_eq (by rw [getNode_append_default]) (hs.goodTable p hp)
    · intro i j hj
      rw [getNode_append_default] at hj
      exact good_of_eq (by rw [getNode_append_default]) (hs.goodChild i j hj)
  · rw [h1]; exact hs
  · rw [h1]
    refine ⟨?_, ?_, ?_, ?_⟩
    · intro p hp
      rcases List.mem_append.mp hp with hp | hp
      · exact lt_of_lt_of_le (hs.tableLt p hp) (by simp)
      · simp only [List.mem_singleton] at hp
        subst hp
        simp
    · intro i j hj
      rw [getNode_append_default] at hj
      exact lt_of_lt_of_le (hs.childLt i j hj) (by simp)
    · intro p hp
      rcases List.mem_append.mp hp with hp | hp
      · exact good_of_eq (by rw [getNode_append_default]) (hs.goodTable p hp)
      · simp only [List.mem_singleton] at hp
        subst hp
        intro m hm
        rw [getNode_append_default, getNode_of_le s.nodes _ (le_refl _)] at hm
        cases hm
    · intro i j hj
      rw [getNode_append_default] at hj
      exact good_of_eq (by rw [getNode_append_default]) (hs.goodChild i j hj)

/-- Setting a message on container `i` preserves the invariant, provided
an empty-id message only ever lands on a container that the table does
not target and no children list mentions (which is how `getContainer`
hands out anonymous containers). -/
theorem inv_setMessage (st : BuilderState) (i : Nat) (e : Email) (hst : Inv st)
    (hid : e.messageID = [] →
      (∀ p ∈ st.table, p.2 ≠ i) ∧ ∀ k j, j ∈ (getNode st.nodes k).children → j ≠ i) :
    Inv { nodes := setNode st.nodes i { getNode st.nodes i with message := some e },
          table := st.table } := by
  have hget : ∀ j, getNode (setNode st.nodes i
      { getNode st.nodes i with message := some e }) j =
      if j = i ∧ i < st.nodes.length then { getNode st.nodes i with message := some e }
      else getNode st.nodes j := by
    intro j
    by_cases hji : j = i
    · subst hji
      by_cases hlt : j < st.nodes.length
      · rw [getNode_set_self _ _ _ hlt, if_pos ⟨rfl, hlt⟩]
      · rw [if_neg (fun h => hlt h.2)]
        unfold getNode setNode
        rw [List.set_eq_of_length_le (Nat.le_of_not_lt hlt)]
    · rw [getNode_set_ne _ i j _ (fun h => hji h.symm), if_neg (fun h => hji h.1)]
  have hchild : ∀ j, (getNode (setNode st.nodes i
      { getNode st.nodes i with message := some e }) j).children =
      (getNode st.nodes j).children := by
    intro j
    rw [hget j]
    split_ifs with h
    · rw [h.1]
    · rfl
  have hlen : (setNode st.nodes i
      { getNode st.nodes i with message := some e }).length = st.nodes.length :=
    length_setNode _ _ _
  refine ⟨?_, ?_, ?_, ?_⟩
  · intro p hp
    rw [hlen]
    exact hst.tableLt p hp
  · intro k j hj
    rw [hchild k] at hj
    rw [hlen]
    exact hst.childLt k j hj
  · intro p hp
    intro m hm
    rw [hget p.2] at hm
    split_ifs at hm with hcnd
    · have hme := Option.some.inj hm
      subst hme
      intro hide
      exact absurd hcnd.1 ((hid hide).1 p hp)
    · exact hst.goodTable p hp m hm
  · intro k j hj
    rw [hchild k] at hj
    intro m hm
    rw [hget j] at hm
    split_ifs at hm with hcnd
    · have hme := Option.some.inj hm
      subst hme
      intro hide
      exact absurd hcnd.1 ((hid hide).2 k j hj)
    · exact hst.goodChild k j hj m hm

/-- The guarded parent/child update of `link` preserves the invariant
when the child container holds no empty-id message. -/
theorem inv_linkStep (st : BuilderState) (pIdx cIdx : Nat) (hst : Inv st)
    (hne : pIdx ≠ cIdx) (hp : pIdx < st.nodes.length) (hc : cIdx < st.nodes.length)
    (hgc : Good st.nodes cIdx) :
    Inv { nodes := setNode (setNode st.nodes cIdx
            { getNode st.nodes cIdx with parent := some pIdx }) pIdx
            { getNode st.nodes pIdx with
              children := (getNode st.nodes pIdx).children ++ [cIdx] },
          table := st.table } := by
  have hget : ∀ j, getNode (setNode (setNode st.nodes cIdx
      { getNode st.nodes cIdx with parent := some pIdx }) pIdx
      { getNode st.nodes pIdx with
        children := (getNode st.nodes pIdx).children ++ [cIdx] }) j =
      if j = pIdx then { getNode st.nodes pIdx with
        children := (getNode st.nodes pIdx).children ++ [cIdx] }
      else if j = cIdx then { getNode st.nodes cIdx with parent := some pIdx }
      else getNode st.nodes j := by
    intro j
    by_cases hjp : j = pIdx
    · subst hjp
      rw [if_pos rfl, getNode_set_self]
      rw [length_setNode]
      exact hp
    · rw [getNode_set_ne _ pIdx j _ (fun h => hjp h.symm), if_neg hjp]
      by_cases hjc : j = cIdx
      · subst hjc
        rw [getNode_set_self _ _ _ hc, if_pos rfl]
      · rw [getNode_set_ne _ cIdx j _ (fun h => hjc h.symm), if_neg hjc]
  have hmsg : ∀ j, (getNode (setNode (setNode st.nodes cIdx
      { getNode st.nodes cIdx with parent := some pIdx }) pIdx
      { getNode st.nodes pIdx with
        children := (getNode st.nodes pIdx).children ++ [cIdx] }) j).message =
      (getNode st.nodes j).message := by
    intro j
    rw [hget j]
    split_ifs with h1 h2
    · rw [h1]
    · rw [h2]
    · rfl
  have hchild : ∀ j, (getNode (setNode (setNode st.nodes cIdx
      { getNode st.nodes cIdx with parent := some pIdx }) pIdx
      { getNode st.nodes pIdx with
        children := (getNode st.nodes pIdx).children ++ [cIdx] }) j).children =
      if j = pIdx then (getNode st.nodes pIdx).children ++ [cIdx]
      else (getNode st.nodes j).children := by
    intro j
    rw [hget j]
    split_ifs with h1 h2
    · rfl
    · rw [h2]
    · rfl
  have hlen : (setNode (setNode st.nodes cIdx
      { getNode st.nodes cIdx with parent := some pIdx }) pIdx
      { getNode st.nodes pIdx with
        children := (getNode st.nodes pIdx).children ++ [cIdx] }).length =
      st.nodes.length := by
    rw [length_setNode, length_setNode]
  refine ⟨?_, ?_, ?_, ?_⟩
  · intro p hp2
    rw [hlen]
    exact hst.tableLt p hp2
  · intro k j hj
    rw [hchild k] at hj
    rw [hlen]
    by_cases hkp : k = pIdx
    · rw [if_pos hkp] at hj
      rcases List.mem_append.mp hj with hj | hj
      · exact hst.childLt pIdx j hj
      · simp only [List.mem_singleton] at hj
        subst hj
        exact hc
    · rw [if_neg hkp] at hj
      exact hst.childLt k j hj
  · intro p hp2
    exact good_of_eq (hmsg p.2) (hst.goodTable p hp2)
  · intro k j hj
    rw [hchild k] at hj
    by_cases hkp : k = pIdx
    · rw [if_pos hkp] at hj
      rcases List.mem_append.mp hj with hj | hj
      · exact good_of_eq (hmsg j) (hst.goodChild pIdx j hj)
      · simp only [List.mem_singleton] at hj
        subst hj
        exact good_of_eq (hmsg j) hgc
    · rw [if_neg hkp] at hj
      exact good_of_eq (hmsg j) (hst.goodChild k j hj)

theorem inv_link (s : BuilderState) (a b : Str) (hs : Inv s) : Inv (link s a b) := by
  have h1 : Inv (getContainer s a).1 := inv_getContainer s a hs
  have h2 : Inv (getContainer (getContainer s a).1 b).1 := inv_getContainer _ b h1
  have hclt := getContainer_lt (getContainer s a).1 b h1
  have hplt : (getContainer s a).2 < (getContainer (getContainer s a).1 b).1.nodes.length :=
    lt_of_lt_of_le (getContainer_lt s a hs) (getContainer_len _ b)
  have hgoodc := getContainer_good (getContainer s a).1 b h1
  unfold link
  dsimp only
  split_ifs with hcond
  · obtain ⟨hne, _⟩ := hcond
    rw [getNode_set_ne _ _ _ _ (fun h => hne h.symm)]
    exact inv_linkStep _ _ _ h2 hne hplt hclt hgoodc
  · exact h2

theorem inv_assignMessage (s : BuilderState) (e : Email) (hs : Inv s) :
    Inv (assignMessage s e) := by
  have h1 : Inv (getContainer s e.messageID).1 := inv_getContainer s e.messageID hs
  unfold assignMessage
  dsimp only
  apply inv_setMessage _ _ _ h1
  intro hide
  rcases getContainer_cases s e.messageID with ⟨_, hst, hidx⟩ | ⟨hk, _, _, _, _⟩ | ⟨hk, _, _, _⟩
  · constructor
    · intro p hp
      rw [hst] at hp
      have hp2 : p ∈ s.table := hp
      rw [hidx]
      exact Nat.ne_of_lt (hs.tableLt p hp2)
    · intro k j hj
      rw [getContainer_getNode] at hj
      rw [hidx]
      exact Nat.ne_of_lt (hs.childLt k j hj)
  · exact absurd hide hk
  · exact absurd hide hk

theorem foldl_preserves {α β : Type _} (P : α → Prop) (f : α → β → α)
    (h : ∀ st x, P st → P (f st x)) :
    ∀ (l : List β) (st : α), P st → P (l.foldl f st)
  | [], _, h0 => h0
  | x :: l, st, h0 => foldl_preserves P f h l (f st x) (h st x h0)

theorem inv_initialState : Inv initialState := by
  refine ⟨?_, ?_, ?_, ?_⟩
  · intro p hp
    simp [initialState] at hp
  · intro i j hj
    rw [getNode_of_le _ _ (by simp [initialState])] at hj
    simp [defaultNode] at hj
  · intro p hp
    simp [initialState] at hp
  · intro i j hj
    rw [getNode_of_le _ _ (by simp [initialState])] at hj
    simp [defaultNode] at hj

theorem inv_processEmail (s : BuilderState) (e : Email) (hs : Inv s) :
    Inv (processEmail s e) := by
  have ha := inv_assignMessage s e hs
  have hl : Inv (linkRefs (assignMessage s e) e.references) := by
    unfold linkRefs
    exact foldl_preserves Inv _ (fun st i h => inv_link st _ _ h) _ _ ha
  unfold processEmail
  dsimp only
  split_ifs with h
  · exact inv_link _ _ _ hl
  · exact hl

theorem inv_pass1 (emails : List Email) : Inv (pass1 emails) :=
  foldl_preserves Inv processEmail (fun st e h => inv_processEmail st e h)
    emails initialState inv_initialState

theorem collectMessages_good (s : BuilderState) (hs : Inv s) :
    ∀ (fuel i : Nat), Good s.nodes i →
      ∀ m ∈ collectMessages s.nodes fuel i, m.messageID ≠ [] := by
  intro fuel
  induction fuel with
  | zero =>
    intro i _ m hm
    simp [collectMessages] at hm
  | succ fuel ih =>
    intro i hgood m hm
    simp only [collectMessages] at hm
    rcases List.mem_append.mp hm with hm | hm
    · cases hmsg : (getNode s.nodes i).message with
      | some m0 =>
        rw [hmsg] at hm
        simp at hm
        subst hm
        exact hgood _ hmsg
      | none =>
        rw [hmsg] at hm
        simp at hm
    · rcases List.mem_flatMap.mp hm with ⟨j, hj, hmj⟩
      exact ih j (hs.goodChild i j hj) m hmj

theorem rootSet_good (s : BuilderState) (hs : Inv s) (r : Nat) (hr : r ∈ rootSet s) :
    Good s.nodes r := by
  unfold rootSet at hr
  rcases List.mem_map.mp (List.mem_of_mem_filter hr) with ⟨p, hp, hpr⟩
  exact hpr ▸ hs.goodTable p hp

/-- Every returned thread arises from `mkThread` at some Pass-1 root. -/
theorem mem_buildThreads {now : Str} {emails : List Email} {t : EmailThread}
    (ht : t ∈ buildThreads now emails) :
    ∃ r ∈ rootSet (pass1 emails), mkThread now (pass1 emails) r = some t := by
  unfold buildThreads at ht
  dsimp only at ht
  have ht2 : t ∈ groupThreads now (pass1 emails) :=
    (List.mergeSort_perm (groupThreads now (pass1 emails))
      (fun a b => decide (b.lastDate ≤ a.lastDate))).mem_iff.mp ht
  unfold groupThreads at ht2
  exact List.mem_filterMap.mp ht2

/-- What `mkThread ... = some t` says about the thread's fields. -/
theorem mkThread_inversion {now : Str} {s : BuilderState} {r : Nat} {t : EmailThread}
    (h : mkThread now s r = some t) :
    t.messages = collectThread s r ∧ t.messageCount = (collectThread s r).length ∧
    collectThread s r ≠ [] ∧ t.lastDate = latestDate (collectThread s r) := by
  unfold mkThread at h
  dsimp only at h
  split_ifs at h with h1 h2
  cases h
  exact ⟨rfl, rfl, h2, rfl⟩

theorem latestDate_le_foldl (msgs : List Email) :
    ∀ acc : Nat, acc ≤ msgs.foldl (fun acc m => if acc < m.date then m.date else acc) acc := by
  induction msgs with
  | nil =>
    intro acc
    simp
  | cons x ms ih =>
    intro acc
    rw [List.foldl_cons]
    refine le_trans ?_ (ih (if acc < x.date then x.date else acc))
    split <;> omega

theorem latestDate_ub (msgs : List Email) :
    ∀ (acc : Nat) (m : Email), m ∈ msgs →
      m.date ≤ msgs.foldl (fun acc m => if acc < m.date then m.date else acc) acc := by
  induction msgs with
  | nil =>
    intro _ m hm
    cases hm
  | cons x ms ih =>
    intro acc m hm
    rw [List.foldl_cons]
    rcases List.mem_cons.mp hm with rfl | hm
    · refine le_trans ?_ (latestDate_le_foldl ms (if acc < m.date then m.date else acc))
      split <;> omega
    · exact ih _ m hm

theorem latestDate_attained (msgs : List Email) :
    ∀ acc : Nat,
      msgs.foldl (fun acc m => if acc < m.date then m.date else acc) acc = acc ∨
      msgs.foldl (fun acc m => if acc < m.date then m.date else acc) acc ∈
        msgs.map (fun m => m.date) := by
  induction msgs with
  | nil =>
    intro acc
    left
    rfl
  | cons x ms ih =>
    intro acc
    rw [List.foldl_cons]
    rcases ih (if acc < x.date then x.date else acc) with h | h
    · rw [h]
      by_cases hx : acc < x.date
      · right
        rw [if_pos hx]
        simp
      · left
        rw [if_neg hx]
    · right
      rw [List.map_cons]
      exact List.mem_cons_of_mem _ h

theorem latestDate_mem (msgs : List Email) (h : msgs ≠ []) :
    latestDate msgs ∈ msgs.map (fun m => m.date) := by
  unfold latestDate
  rcases latestDate_attained msgs 0 with h0 | h0
  · rw [h0]
    obtain ⟨m, ms, rfl⟩ := List.exists_cons_of_ne_nil h
    have hub := latestDate_ub (m :: ms) 0 m (List.mem_cons_self m ms)
    rw [h0] at hub
    have hz : m.date = 0 := Nat.le_zero.mp hub
    exact List.mem_map.mpr ⟨m, List.mem_cons_self m ms, hz⟩
  · exact h0

/-- C6: every Thread returned by `buildThreads` carries exactly the
pre-order collection of its root's subtree as its member list, its
`messageCount` is that collection's length, the member list is
non-empty, its `lastDate` is one of the members' dates and bounds every
member's date from above — i.e. `lastDate` is the maximum member date. -/
theorem buildThreads_count_and_latest (now : Str) (emails : List Email) (t : EmailThread)
    (ht : t ∈ buildThreads now emails) :
    (∃ r ∈ rootSet (pass1 emails), t.messages = collectThread (pass1 emails) r) ∧
    t.messageCount = t.messages.length ∧
    t.messages ≠ [] ∧
    t.lastDate ∈ t.messages.map (fun m => m.date) ∧
    ∀ m ∈ t.messages, m.date ≤ t.lastDate := by
  obtain ⟨r, hr, hmk⟩ := mem_buildThreads ht
  obtain ⟨hmsgs, hcount, hne, hlast⟩ := mkThread_inversion hmk
  refine ⟨⟨r, hr, hmsgs⟩, ?_, ?_, ?_, ?_⟩
  · rw [hcount, hmsgs]
  · rw [hmsgs]
    exact hne
  · rw [hlast, hmsgs]
    exact latestDate_mem _ hne
  · intro m hm
    rw [hlast]
    exact latestDate_ub _ 0 m (hmsgs ▸ hm)

/-- Threads survive the final sort unchanged as a set. -/
theorem mem_buildThreads_of_mem_group {now : Str} {emails : List Email} {t : EmailThread}
    (h : t ∈ groupThreads now (pass1 emails)) : t ∈ buildThreads now emails := by
  unfold buildThreads
  dsimp only
  exact (List.mergeSort_perm _ _).mem_iff.mpr h

/-- A single registered message used to instantiate the theorems. -/
def emailSimple : Email :=
  { (default : Email) with messageID := "a".data, subject := "Re: Hi".data, date := 5 }

/-- C6 witness: the theorem applied to the one thread obtained from a
singleton batch. -/
theorem buildThreads_count_and_latest_witness :
    (∃ r ∈ rootSet (pass1 [emailSimple]),
        ((groupThreads "t".data (pass1 [emailSimple])).headD default).messages =
          collectThread (pass1 [emailSimple]) r) ∧
    ((groupThreads "t".data (pass1 [emailSimple])).headD default).messageCount =
      ((groupThreads "t".data (pass1 [emailSimple])).headD default).messages.length ∧
    ((groupThreads "t".data (pass1 [emailSimple])).headD default).messages ≠ [] ∧
    ((groupThreads "t".data (pass1 [emailSimple])).headD default).lastDate ∈
      ((groupThreads "t".data (pass1 [emailSimple])).headD default).messages.map
        (fun m => m.date) ∧
    ∀ m ∈ ((groupThreads "t".data (pass1 [emailSimple])).headD default).messages,
      m.date ≤ ((groupThreads "t".data (pass1 [emailSimple])).headD default).lastDate :=
  buildThreads_count_and_latest "t".data [emailSimple]
    ((groupThreads "t".data (pass1 [emailSimple])).headD default)
    (mem_buildThreads_of_mem_group (by decide))

/-- C9: an email whose `MessageID` is the empty string is silently
absent from every returned Thread: `getContainer` hands its message a
fresh container that is never registered in the id table, never linked
into any children list, and hence never collected. -/
theorem buildThreads_drops_empty_messageID (now : Str) (emails : List Email) (e : Email)
    (he : e.messageID = []) (t : EmailThread) (ht : t ∈ buildThreads now emails) :
    e ∉ t.messages := by
  obtain ⟨r, hr, hmk⟩ := mem_buildThreads ht
  obtain ⟨hmsgs, _, _, _⟩ := mkThread_inversion hmk
  intro hmem
  rw [hmsgs] at hmem
  unfold collectThread at hmem
  have hgood := rootSet_good (pass1 emails) (inv_pass1 emails) r hr
  exact collectMessages_good (pass1 emails) (inv_pass1 emails) _ r hgood e hmem he

/-- An email with an empty `MessageID`, as handed to `BuildThreads`
directly. -/
def emailNoID : Email := { (default : Email) with subject := "lost".data, date := 9 }

/-- C9 witness: in the batch `[emailNoID, emailSimple]` the empty-id
email is absent from the produced thread. -/
theorem buildThreads_drops_empty_messageID_witness :
    emailNoID ∉
      ((groupThreads "t".data (pass1 [emailNoID, emailSimple])).headD default).messages :=
  buildThreads_drops_empty_messageID "t".data [emailNoID, emailSimple] emailNoID rfl
    ((groupThreads "t".data (pass1 [emailNoID, emailSimple])).headD default)
    (mem_buildThreads_of_mem_group (by decide))

/-- The folder used to exhibit the pre-flagged purge side effect: message
1 already carries `\Deleted` from an earlier operation. -/
def preDeletedFolder : List ImapMsg :=
  [{ uid := 1, flags := [deletedFlag] }, { uid := 2, flags := [] }, { uid := 3, flags := [] }]

/-- C10 witness: deleting message 2 also expunges message 1, which was
only flagged, and the move path purges it identically. -/
theorem deleteMessage_expunges_every_deleted_witness :
    deleteMessage (some preDeletedFolder) "2".data =
      .ok (preDeletedFolder.filter (fun m => !hasFlag m.flags deletedFlag && !(m.uid == 2))) ∧
    (moveMessage (some preDeletedFolder) [] "2".data).map (fun p => p.1) =
      .ok (preDeletedFolder.filter (fun m => !hasFlag m.flags deletedFlag && !(m.uid == 2))) ∧
    ∀ m ∈ preDeletedFolder, hasFlag m.flags deletedFlag = true → ∀ r,
      deleteMessage (some preDeletedFolder) "2".data = .ok r → m ∉ r :=
  deleteMessage_expunges_every_deleted preDeletedFolder [] "2".data 2 (by decide)

/-- C7: in each multi-message retrieval, when the fetched sequence of
decode outcomes contains a failing message (`none`), exactly that
message is dropped: the call still answers ok (no error escalates) and
the result consists of all the other successfully decoded messages, in
order. -/
theorem decode_failure_drops_only_that_message
    (mbox : List (Option Email)) (limit : Nat) (u v : List (Option Email))
    (h1 : seqRange mbox (if limit < mbox.length then mbox.length - limit + 1 else 1)
        mbox.length = u ++ none :: v)
    (mbox2 : List (Option Email)) (page pageSize : Nat) (u2 v2 : List (Option Email))
    (h2 : mbox2.length ≠ 0) (h3 : pageSize ≠ 0)
    (h4 : seqRange mbox2 (pageRange mbox2.length page pageSize).2.1
        (pageRange mbox2.length page pageSize).2.2 = u2 ++ none :: v2)
    (mbox3 : List (Nat × Option Email)) (uids : List Nat) (u3 v3 : List (Option Email))
    (h5 : uids ≠ [])
    (h6 : (mbox3.filter (fun p => uids.contains p.1)).map (fun p => p.2) = u3 ++ none :: v3) :
    fetchMessages (some mbox) limit = .ok (u.filterMap id ++ v.filterMap id) ∧
    (∃ r, fetchMessagesPaginated (some mbox2) page pageSize = .ok r ∧
        r.emails = (u2.filterMap id ++ v2.filterMap id).reverse) ∧
    fetchMessagesByUIDs (some mbox3) uids = .ok (u3.filterMap id ++ v3.filterMap id) := by
  have hne : mbox.length ≠ 0 := by
    intro h0
    rw [seqRange, h0] at h1
    simp at h1
  refine ⟨?_, ?_, ?_⟩
  · unfold fetchMessages
    dsimp only
    rw [if_neg hne, h1]
    simp [List.filterMap_append]
  · unfold fetchMessagesPaginated
    dsimp only
    rw [if_neg h2, if_neg h3, h4]
    refine ⟨_, rfl, ?_⟩
    simp [newPaginatedEmails, List.filterMap_append]
  · unfold fetchMessagesByUIDs
    rw [if_neg h5]
    dsimp only
    rw [h6]
    simp [List.filterMap_append]

def emailOne : Email := { (default : Email) with id := "1".data }

def emailThree : Email := { (default : Email) with id := "3".data }

/-- A three-message folder whose middle message fails to decode. -/
def mboxWithFailure : List (Option Email) := [some emailOne, none, some emailThree]

/-- The same folder keyed by uid, for the by-uid fetch. -/
def mboxWithFailureByUid : List (Nat × Option Email) :=
  [(1, some emailOne), (2, none), (3, some emailThree)]

/-- C7 witness: the theorem at the three concrete retrievals over the
folder with the failing middle message. -/
theorem decode_failure_drops_only_that_message_witness :
    fetchMessages (some mboxWithFailure) 10 =
      .ok ([some emailOne].filterMap id ++ [some emailThree].filterMap id) ∧
    (∃ r, fetchMessagesPaginated (some mboxWithFailure) 1 2 = .ok r ∧
        r.emails = (([] : List (Option Email)).filterMap id ++
          [some emailThree].filterMap id).reverse) ∧
    fetchMessagesByUIDs (some mboxWithFailureByUid) [1, 2, 3] =
      .ok ([some emailOne].filterMap id ++ [some emailThree].filterMap id) :=
  decode_failure_drops_only_that_message mboxWithFailure 10 [some emailOne] [some emailThree]
    (by decide) mboxWithFailure 1 2 [] [some emailThree] (by decide) (by decide) (by decide)
    mboxWithFailureByUid [1, 2, 3] [some emailOne] [some emailThree] (by decide) (by decide)

end Lilmail
